import Mathlib

/-!
Verification of the Synacor-challenge virtual machine interpreter
(`src/main.rs`).

The Rust program is a single-file interpreter for the fictional 16-bit
Synacor architecture: a 32768-word memory, eight registers, an unbounded
stack, and a program counter.  The development below is a shallow
embedding of that source:

* machine words are modelled as `Nat` with explicit `% 2^16` / `% 2^15`
  reductions exactly where the source reduces;
* the mutable `VM` struct becomes an explicit-state record, and the
  methods `get`, `get_address`, `get_register` become state-passing
  functions returning `Except`;
* every abort of the Rust program — the `fatal!` macro as well as the
  implicit Rust panics (array index out of bounds, `u16` addition
  overflow in debug builds, division by zero) — is modelled as a
  `Fault`, and the fault result carries the machine state at the point
  of the abort, i.e. with exactly the mutations the source had already
  performed;
* `print!("{}", a as u8 as char)` sends the character with code point
  `a % 256` to stdout, which at the byte level receives that code
  point's UTF-8 encoding; the embedding records the emitted bytes;
* the byte-level program loader `load` consumes a list of outcomes of
  `file.read(&mut buffer)` calls.
-/

namespace Synacor

/-- Constant `MEM_SIZE`: number of memory cells (0x8000), as in the source. -/
def MEM_SIZE : Nat := 32768

/-- Constant `NUM_REGISTERS`: number of registers, as in the source. -/
def NUM_REGISTERS : Nat := 8

/-- Constant `BASE`: the arithmetic modulus 0x8000, as in the source. -/
def BASE : Nat := 32768

/-- Constant `U16MOD`: modulus of the `u16` machine-word type. -/
def U16MOD : Nat := 65536

/-- Ways the Rust process aborts: each `fatal!` call site of the source,
plus the implicit Rust panics (out-of-bounds array index, debug-build
`u16` addition overflow, `%` by zero). -/
inductive Fault where
  /-- Rust panic: array index out of bounds (`self.memory[i]` with `i ≥ MEM_SIZE`). -/
  | oobIndex (i : Nat)
  /-- Abort `fatal!("bad memory value: ...")` in `VM::get`: raw operand cell ≥ 32776. -/
  | badValue (a : Nat)
  /-- Abort `fatal!("bad register lvalue: ...")` in `VM::get_register`. -/
  | badRegister (a : Nat)
  /-- Abort `fatal!("bad opcode ...")` in `VM::run`. -/
  | badOpcode (op : Nat)
  /-- Abort `fatal!("pop from empty stack ...")` in the POP arm. -/
  | emptyPop
  /-- Rust panic: `b % c` with `c = 0` in the MOD arm. -/
  | divideByZero
  /-- Rust debug-build panic: `b + c` overflowing `u16` in the ADD arm. -/
  | addOverflow
  /-- Abort `fatal!("read error")` in the IN arm (stdin yielded no byte). -/
  | readError
  deriving DecidableEq, Repr

/-- The `VM` struct of the source, with the terminal made explicit:
`input` is the stream of bytes still available on stdin (each < 256) and
`output` is the list of bytes written to stdout so far. -/
structure VM where
  /-- Field `memory`: 15-bit address space of 16-bit cells (`[u16; MEM_SIZE]`). -/
  memory : Nat → Nat
  /-- Field `registers`: the eight registers (`[u16; NUM_REGISTERS]`). -/
  registers : Nat → Nat
  /-- Field `stack`: unbounded stack; the list head is the top of the Rust `Vec`. -/
  stack : List Nat
  /-- Field `pc`: program counter (`usize`). -/
  pc : Nat
  /-- Bytes still available on stdin. -/
  input : List Nat
  /-- Bytes written to stdout so far. -/
  output : List Nat

/-- Assignment `self.registers[a] = v` (the index `a` always comes from
`get_register`, hence is < 8 and in bounds). -/
def VM.setReg (s : VM) (a v : Nat) : VM :=
  { s with registers := fun i => if i = a then v else s.registers i }

/-- Assignment `self.memory[a] = v` for an in-bounds `a`. -/
def VM.setMem (s : VM) (a v : Nat) : VM :=
  { s with memory := fun i => if i = a then v else s.memory i }

/-- Bytes that `print!("{}", c)` sends to stdout for the `char` with code
point `cp < 256`: the UTF-8 encoding of `cp` — one byte for
`cp ≤ 0x7F`, two bytes (`0xC0 ||| cp >>> 6`, `0x80 ||| cp &&& 0x3F`) for
`0x80 ≤ cp ≤ 0xFF`. -/
def utf8OfByte (cp : Nat) : List Nat :=
  if cp < 128 then [cp] else [192 + cp / 64, 128 + cp % 64]

/-- Method `VM::get`: read the cell at `pc` (Rust index panic when
`pc ≥ MEM_SIZE`), advance `pc`, then decode — cells below `MEM_SIZE` are
literals, `MEM_SIZE ≤ a < MEM_SIZE + NUM_REGISTERS` reads register
`a - MEM_SIZE`, and anything larger is the `fatal!("bad memory value")`
abort.  Errors carry the state at the abort point. -/
def VM.get (s : VM) : Except (Fault × VM) (Nat × VM) :=
  if s.pc < MEM_SIZE then
    if s.memory s.pc < MEM_SIZE then
      Except.ok (s.memory s.pc, { s with pc := s.pc + 1 })
    else if s.memory s.pc - MEM_SIZE < NUM_REGISTERS then
      Except.ok (s.registers (s.memory s.pc - MEM_SIZE), { s with pc := s.pc + 1 })
    else
      Except.error (Fault.badValue (s.memory s.pc), { s with pc := s.pc + 1 })
  else
    Except.error (Fault.oobIndex s.pc, s)

/-- Method `VM::get_address`: `self.get() as usize` — no range check of any
kind; the cast is the identity on `Nat`. -/
def VM.get_address (s : VM) : Except (Fault × VM) (Nat × VM) :=
  s.get

/-- Method `VM::get_register`: read the cell at `pc` (Rust index panic when
`pc ≥ MEM_SIZE`), advance `pc`; only `MEM_SIZE ≤ a` with
`a - MEM_SIZE < NUM_REGISTERS` is accepted, yielding the register index
`a - MEM_SIZE`; otherwise the `fatal!("bad register lvalue")` abort. -/
def VM.get_register (s : VM) : Except (Fault × VM) (Nat × VM) :=
  if s.pc < MEM_SIZE then
    if MEM_SIZE ≤ s.memory s.pc ∧ s.memory s.pc - MEM_SIZE < NUM_REGISTERS then
      Except.ok (s.memory s.pc - MEM_SIZE, { s with pc := s.pc + 1 })
    else
      Except.error (Fault.badRegister (s.memory s.pc), { s with pc := s.pc + 1 })
  else
    Except.error (Fault.oobIndex s.pc, s)

/-- Result of executing one instruction: normal continuation, normal
termination (HALT, or RET on an empty stack), or an abort.  Both `halt`
and `fault` carry the machine state reached. -/
inductive StepResult where
  | ok (s : VM)
  | halt (s : VM)
  | fault (f : Fault) (s : VM)

/-- State carried by a step result. -/
def StepResult.state : StepResult → VM
  | .ok s => s
  | .halt s => s
  | .fault _ s => s

/-- Whether the step aborted. -/
def StepResult.isFault : StepResult → Bool
  | .fault _ _ => true
  | _ => false

/-- One arm of the `match op` dispatch inside `VM::run`, applied to the
state `s` in which `pc` has already been advanced past the opcode cell.
Each arm is a direct transcription of the corresponding Rust arm,
sequencing the operand decoders exactly as the source does. -/
def execOp (op : Nat) (s : VM) : StepResult :=
  match op with
  | 0 => -- HALT
    StepResult.halt s
  | 1 => -- SET a b
    match s.get_register with
    | Except.error (f, t) => StepResult.fault f t
    | Except.ok (a, s) =>
      match s.get with
      | Except.error (f, t) => StepResult.fault f t
      | Except.ok (b, s) => StepResult.ok (s.setReg a b)
  | 2 => -- PUSH a
    match s.get with
    | Except.error (f, t) => StepResult.fault f t
    | Except.ok (a, s) => StepResult.ok { s with stack := a :: s.stack }
  | 3 => -- POP a: the source pops BEFORE decoding the write operand
    match s.stack with
    | [] => StepResult.fault Fault.emptyPop s
    | v :: rest =>
      match VM.get_register { s with stack := rest } with
      | Except.error (f, t) => StepResult.fault f t
      | Except.ok (a, s) => StepResult.ok (s.setReg a v)
  | 4 => -- EQ a b c
    match s.get_register with
    | Except.error (f, t) => StepResult.fault f t
    | Except.ok (a, s) =>
      match s.get with
      | Except.error (f, t) => StepResult.fault f t
      | Except.ok (b, s) =>
        match s.get with
        | Except.error (f, t) => StepResult.fault f t
        | Except.ok (c, s) => StepResult.ok (s.setReg a (if b = c then 1 else 0))
  | 5 => -- GT a b c
    match s.get_register with
    | Except.error (f, t) => StepResult.fault f t
    | Except.ok (a, s) =>
      match s.get with
      | Except.error (f, t) => StepResult.fault f t
      | Except.ok (b, s) =>
        match s.get with
        | Except.error (f, t) => StepResult.fault f t
        | Except.ok (c, s) => StepResult.ok (s.setReg a (if c < b then 1 else 0))
  | 6 => -- JMP a
    match s.get_address with
    | Except.error (f, t) => StepResult.fault f t
    | Except.ok (a, s) => StepResult.ok { s with pc := a }
  | 7 => -- JT a b
    match s.get with
    | Except.error (f, t) => StepResult.fault f t
    | Except.ok (a, s) =>
      match s.get_address with
      | Except.error (f, t) => StepResult.fault f t
      | Except.ok (b, s) =>
        if a ≠ 0 then StepResult.ok { s with pc := b } else StepResult.ok s
  | 8 => -- JF a b
    match s.get with
    | Except.error (f, t) => StepResult.fault f t
    | Except.ok (a, s) =>
      match s.get_address with
      | Except.error (f, t) => StepResult.fault f t
      | Except.ok (b, s) =>
        if a = 0 then StepResult.ok { s with pc := b } else StepResult.ok s
  | 9 => -- ADD a b c: `(b + c) % BASE` on u16 (debug build panics on overflow)
    match s.get_register with
    | Except.error (f, t) => StepResult.fault f t
    | Except.ok (a, s) =>
      match s.get with
      | Except.error (f, t) => StepResult.fault f t
      | Except.ok (b, s) =>
        match s.get with
        | Except.error (f, t) => StepResult.fault f t
        | Except.ok (c, s) =>
          if b + c < U16MOD then StepResult.ok (s.setReg a ((b + c) % BASE))
          else StepResult.fault Fault.addOverflow s
  | 10 => -- MULT a b c: `b.wrapping_mul(c) % BASE`
    match s.get_register with
    | Except.error (f, t) => StepResult.fault f t
    | Except.ok (a, s) =>
      match s.get with
      | Except.error (f, t) => StepResult.fault f t
      | Except.ok (b, s) =>
        match s.get with
        | Except.error (f, t) => StepResult.fault f t
        | Except.ok (c, s) => StepResult.ok (s.setReg a (b * c % U16MOD % BASE))
  | 11 => -- MOD a b c: `b % c` (Rust panics when c = 0)
    match s.get_register with
    | Except.error (f, t) => StepResult.fault f t
    | Except.ok (a, s) =>
      match s.get with
      | Except.error (f, t) => StepResult.fault f t
      | Except.ok (b, s) =>
        match s.get with
        | Except.error (f, t) => StepResult.fault f t
        | Except.ok (c, s) =>
          if c = 0 then StepResult.fault Fault.divideByZero s
          else StepResult.ok (s.setReg a (b % c))
  | 12 => -- AND a b c
    match s.get_register with
    | Except.error (f, t) => StepResult.fault f t
    | Except.ok (a, s) =>
      match s.get with
      | Except.error (f, t) => StepResult.fault f t
      | Except.ok (b, s) =>
        match s.get with
        | Except.error (f, t) => StepResult.fault f t
        | Except.ok (c, s) => StepResult.ok (s.setReg a (b &&& c))
  | 13 => -- OR a b c
    match s.get_register with
    | Except.error (f, t) => StepResult.fault f t
    | Except.ok (a, s) =>
      match s.get with
      | Except.error (f, t) => StepResult.fault f t
      | Except.ok (b, s) =>
        match s.get with
        | Except.error (f, t) => StepResult.fault f t
        | Except.ok (c, s) => StepResult.ok (s.setReg a (b ||| c))
  | 14 => -- NOT a b: `!b & (BASE - 1)`; u16 complement is XOR with 0xFFFF
    match s.get_register with
    | Except.error (f, t) => StepResult.fault f t
    | Except.ok (a, s) =>
      match s.get with
      | Except.error (f, t) => StepResult.fault f t
      | Except.ok (b, s) => StepResult.ok (s.setReg a ((b ^^^ 65535) &&& (BASE - 1)))
  | 15 => -- RMEM a b: `self.registers[a] = self.memory[b]` (index panic when b ≥ MEM_SIZE)
    match s.get_register with
    | Except.error (f, t) => StepResult.fault f t
    | Except.ok (a, s) =>
      match s.get_address with
      | Except.error (f, t) => StepResult.fault f t
      | Except.ok (b, s) =>
        if b < MEM_SIZE then StepResult.ok (s.setReg a (s.memory b))
        else StepResult.fault (Fault.oobIndex b) s
  | 16 => -- WMEM a b: `self.memory[a] = b` (index panic when a ≥ MEM_SIZE)
    match s.get_address with
    | Except.error (f, t) => StepResult.fault f t
    | Except.ok (a, s) =>
      match s.get with
      | Except.error (f, t) => StepResult.fault f t
      | Except.ok (b, s) =>
        if a < MEM_SIZE then StepResult.ok (s.setMem a b)
        else StepResult.fault (Fault.oobIndex a) s
  | 17 => -- CALL a: push `self.pc as u16`, jump to a
    match s.get_address with
    | Except.error (f, t) => StepResult.fault f t
    | Except.ok (a, s) => StepResult.ok { s with stack := (s.pc % U16MOD) :: s.stack, pc := a }
  | 18 => -- RET: pop into pc; empty stack terminates like HALT
    match s.stack with
    | [] => StepResult.halt s
    | v :: rest => StepResult.ok { s with stack := rest, pc := v }
  | 19 => -- OUT a: `print!("{}", a as u8 as char)`
    match s.get with
    | Except.error (f, t) => StepResult.fault f t
    | Except.ok (a, s) => StepResult.ok { s with output := s.output ++ utf8OfByte (a % 256) }
  | 20 => -- IN a: one byte from stdin, stored as `(v as u16) % BASE`
    match s.get_register with
    | Except.error (f, t) => StepResult.fault f t
    | Except.ok (a, s) =>
      match s.input with
      | v :: rest => StepResult.ok (VM.setReg { s with input := rest } a (v % BASE))
      | [] => StepResult.fault Fault.readError s
  | 21 => -- NOOP
    StepResult.ok s
  | _ =>
    StepResult.fault (Fault.badOpcode op) s

/-- One iteration of the `loop` in `VM::run`: fetch the opcode at `pc`
(Rust index panic when `pc ≥ MEM_SIZE`), advance `pc`, dispatch. -/
def step (s : VM) : StepResult :=
  if s.pc < MEM_SIZE then
    execOp (s.memory s.pc) { s with pc := s.pc + 1 }
  else
    StepResult.fault (Fault.oobIndex s.pc) s

/-- Memory function holding the words of `l` at addresses `0, 1, ...`
and zero elsewhere (the initial memory is all zeroes). -/
def memOf (l : List Nat) : Nat → Nat :=
  fun i => l.getD i 0

/-- Freshly constructed VM (`VM::new`) whose memory has been initialised
with the words of `l` (`VM::init`), with a given stdin stream. -/
def vmOf (l : List Nat) (inp : List Nat) : VM :=
  { memory := memOf l
    registers := fun _ => 0
    stack := []
    pc := 0
    input := inp
    output := [] }

/-- Outcome of one `file.read(&mut buffer)` call in `VM::load` against
the two-byte buffer: a full two-byte read (`Ok(2)`), a short read
(`Ok(n)` with `n ≠ 2`, i.e. end of stream or an odd trailing byte), or
an I/O error (`Err(_)`). -/
inductive ReadResult where
  /-- Outcome `Ok(2)` with the two bytes read (little-endian: low, high). -/
  | ok2 (lo hi : Nat)
  /-- Outcome `Ok(n)` with `n ≠ 2`: end of stream, or a single trailing byte. -/
  | okShort (n : Nat)
  /-- Outcome `Err(_)`: the read itself failed. -/
  | err
  deriving DecidableEq, Repr

/-- Whether a read outcome is a full two-byte read. -/
def ReadResult.isOk2 : ReadResult → Bool
  | .ok2 _ _ => true
  | _ => false

/-- The `loop` of `VM::load`: on `Ok(2)` store
`(buffer[1] << 8) | buffer[0]` at address `i` (Rust index panic when
`i ≥ MEM_SIZE`) and continue; on ANY other outcome — including a read
error — break out of the loop.  An exhausted outcome list stands for a
stream that would keep returning `Ok(0)`. -/
def loadLoop (rs : List ReadResult) (mem : Nat → Nat) (i : Nat) : Except Fault (Nat → Nat) :=
  match rs with
  | [] => Except.ok mem
  | ReadResult.ok2 lo hi :: rest =>
    if i < MEM_SIZE then
      loadLoop rest (fun j => if j = i then hi <<< 8 ||| lo else mem j) (i + 1)
    else
      Except.error (Fault.oobIndex i)
  | ReadResult.okShort _ :: _ => Except.ok mem
  | ReadResult.err :: _ => Except.ok mem

/-- Method `VM::load` after a successful `File::open`: run the read loop; the
function returns `Ok(())` on every loop exit, so the result is an error
only for the out-of-bounds panic of an over-long stream. -/
def load (rs : List ReadResult) (s : VM) : Except Fault VM :=
  match loadLoop rs s.memory 0 with
  | Except.error f => Except.error f
  | Except.ok m => Except.ok { s with memory := m }

/-! ### Concrete machine states used as test vectors -/

/-- RMEM instruction whose address operand points at a memory cell
holding the 16-bit value 40000: `RMEM r0, [5]` with `memory[5] = 40000`. -/
def rmemEx : VM := vmOf [15, 32768, 5, 0, 0, 40000] []

/-- ADD instruction on two small literals: `ADD r0, 3, 4`. -/
def c1WitEx : VM := vmOf [9, 32768, 3, 4] []

/-- MULT instruction on two literals: `MULT r0, 300, 200`. -/
def multEx : VM := vmOf [10, 32768, 300, 200] []

/-- JMP through register 0, which holds the out-of-range value 40000. -/
def jmpEx : VM :=
  { vmOf [6, 32768] [] with registers := fun i => if i = 0 then 40000 else 0 }

/-- Empty VM used to exercise the loader. -/
def c4Ex : VM := vmOf [] []

/-- POP whose write operand is the literal 5 — an invalid register
lvalue — with a one-element stack. -/
def popEx : VM := { vmOf [3, 5] [] with stack := [7] }

/-- MOD by the literal 0: `MOD r0, 5, 0`. -/
def modEx : VM := vmOf [11, 32768, 5, 0] []

/-- JT with a false condition: `JT 0, 6`. -/
def jtEx : VM := vmOf [7, 0, 6] []

/-- CALL to address 5, where a RET instruction sits. -/
def callEx : VM := vmOf [17, 5, 19, 66, 0, 18] []

/-- OUT of the value 200, whose low byte is in 128..=255. -/
def outEx : VM := vmOf [19, 200] []

/-- OUT of the ASCII value 65. -/
def outWitEx : VM := vmOf [19, 65] []

/-- ADD with in-range operands, for the overflow-freedom witness. -/
def c9Ex : VM := vmOf [9, 32768, 1, 2] []

/-- SET instruction: `SET r0, 7`. -/
def c10Ex : VM := vmOf [1, 32768, 7] []

/-! ### Helper lemmas about the operand decoders -/

/-- Case analysis on `VM.get`: either it succeeds — with the state
advanced by exactly one cell and a value that is a literal below
`MEM_SIZE` or the contents of one of the eight registers — or it aborts
without touching anything but `pc`. -/
theorem get_split (s : VM) :
    (∃ v, s.get = Except.ok (v, { s with pc := s.pc + 1 }) ∧
       (v < MEM_SIZE ∨ ∃ k, k < NUM_REGISTERS ∧ v = s.registers k)) ∨
    s.get = Except.error (Fault.badValue (s.memory s.pc), { s with pc := s.pc + 1 }) ∨
    s.get = Except.error (Fault.oobIndex s.pc, s) := by
  unfold VM.get
  split
  · split
    · exact Or.inl ⟨_, rfl, Or.inl (by assumption)⟩
    · split
      · exact Or.inl ⟨_, rfl, Or.inr ⟨_, by assumption, rfl⟩⟩
      · exact Or.inr (Or.inl rfl)
  · exact Or.inr (Or.inr rfl)

/-- Case analysis on `VM.get_register`: either it yields a register
index below `NUM_REGISTERS` with the state advanced by one cell, or it
aborts without touching anything but `pc`. -/
theorem get_register_split (s : VM) :
    (∃ a, a < NUM_REGISTERS ∧ s.get_register = Except.ok (a, { s with pc := s.pc + 1 })) ∨
    s.get_register = Except.error (Fault.badRegister (s.memory s.pc), { s with pc := s.pc + 1 }) ∨
    s.get_register = Except.error (Fault.oobIndex s.pc, s) := by
  unfold VM.get_register
  split
  · split
    · next hc => exact Or.inl ⟨_, hc.2, rfl⟩
    · exact Or.inr (Or.inl rfl)
  · exact Or.inr (Or.inr rfl)

/-- Writing a value below 32768 into a register keeps every register
below 32768. -/
theorem setReg_bound {s : VM} {a v : Nat} (hreg : ∀ i, s.registers i < 32768)
    (hv : v < 32768) : ∀ i, (s.setReg a v).registers i < 32768 := by
  intro i
  simp only [VM.setReg]
  split
  · exact hv
  · exact hreg i

/-- A value produced by the read-operand decoder is below 32768 whenever
every register is. -/
theorem operand_bound {s : VM} {v : Nat} (hreg : ∀ i, s.registers i < 32768)
    (h : v < MEM_SIZE ∨ ∃ k, k < NUM_REGISTERS ∧ v = s.registers k) : v < 32768 := by
  rcases h with h | ⟨k, -, rfl⟩
  · exact h
  · exact hreg k

/-- Bitwise or of two 15-bit values is a 15-bit value. -/
theorem or_bound {b c : Nat} (hb : b < 32768) (hc : c < 32768) : (b ||| c) < 32768 := by
  have e : (32768 : Nat) = 2 ^ 15 := by norm_num
  rw [e] at hb hc ⊢
  exact Nat.or_lt_two_pow hb hc

/-- A successful `VM.get` advances `pc` by one and changes nothing else. -/
theorem get_ok_state {s t : VM} {v : Nat} (h : s.get = Except.ok (v, t)) :
    t = { s with pc := s.pc + 1 } := by
  rcases get_split s with ⟨w, h', -⟩ | h' | h'
  · rw [h'] at h
    cases h
    rfl
  · rw [h'] at h
    exact Except.noConfusion h
  · rw [h'] at h
    exact Except.noConfusion h

/-- A successful `VM.get_register` advances `pc` by one, changes nothing
else, and yields a register index below `NUM_REGISTERS`. -/
theorem get_register_ok_state {s t : VM} {a : Nat} (h : s.get_register = Except.ok (a, t)) :
    t = { s with pc := s.pc + 1 } ∧ a < NUM_REGISTERS := by
  rcases get_register_split s with ⟨w, hw, h'⟩ | h' | h'
  · rw [h'] at h
    cases h
    exact ⟨rfl, hw⟩
  · rw [h'] at h
    exact Except.noConfusion h
  · rw [h'] at h
    exact Except.noConfusion h

/-- Combined effect analysis of a single dispatch arm, for any opcode:
(1) when the arm aborts, memory and registers are exactly as on entry
and the stack is either untouched or — only for POP, opcode 3 — already
popped once; (2) when the arm does not abort, every opcode except WMEM
leaves memory unchanged; (3) when the arm does not abort and all
registers and stack entries are below 32768 on entry, every opcode
except RMEM leaves all registers below 32768. -/
theorem execOp_effects {op : Nat} {s : VM} {r : StepResult} (h : execOp op s = r) :
    (r.isFault = true → r.state.memory = s.memory ∧ r.state.registers = s.registers ∧
       (r.state.stack = s.stack ∨ (op = 3 ∧ r.state.stack = s.stack.tail))) ∧
    (r.isFault = false → op ≠ 16 → r.state.memory = s.memory) ∧
    (r.isFault = false → (∀ i, s.registers i < 32768) → (∀ v ∈ s.stack, v < 32768) →
       op ≠ 15 → ∀ i, r.state.registers i < 32768) := by
  unfold execOp VM.get_address at h
  split at h
  · -- HALT
    subst h
    exact ⟨fun hf => Bool.noConfusion hf, fun _ _ => rfl, fun _ hreg _ _ => hreg⟩
  · -- SET
    rcases get_register_split s with ⟨a, -, h1⟩ | h1 | h1 <;> simp only [h1] at h
    · rcases get_split { s with pc := s.pc + 1 } with ⟨b, h2, hb⟩ | h2 | h2 <;>
        simp only [h2] at h <;> subst h
      · exact ⟨fun hf => Bool.noConfusion hf, fun _ _ => rfl,
          fun _ hreg _ _ => setReg_bound hreg (operand_bound hreg hb)⟩
      · exact ⟨fun _ => ⟨rfl, rfl, Or.inl rfl⟩, fun hf => Bool.noConfusion hf,
          fun hf => Bool.noConfusion hf⟩
      · exact ⟨fun _ => ⟨rfl, rfl, Or.inl rfl⟩, fun hf => Bool.noConfusion hf,
          fun hf => Bool.noConfusion hf⟩
    · subst h
      exact ⟨fun _ => ⟨rfl, rfl, Or.inl rfl⟩, fun hf => Bool.noConfusion hf,
        fun hf => Bool.noConfusion hf⟩
    · subst h
      exact ⟨fun _ => ⟨rfl, rfl, Or.inl rfl⟩, fun hf => Bool.noConfusion hf,
        fun hf => Bool.noConfusion hf⟩
  · -- PUSH
    rcases get_split s with ⟨a, h1, -⟩ | h1 | h1 <;> simp only [h1] at h <;> subst h
    · exact ⟨fun hf => Bool.noConfusion hf, fun _ _ => rfl, fun _ hreg _ _ => hreg⟩
    · exact ⟨fun _ => ⟨rfl, rfl, Or.inl rfl⟩, fun hf => Bool.noConfusion hf,
        fun hf => Bool.noConfusion hf⟩
    · exact ⟨fun _ => ⟨rfl, rfl, Or.inl rfl⟩, fun hf => Bool.noConfusion hf,
        fun hf => Bool.noConfusion hf⟩
  · -- POP
    rcases hs : s.stack with - | ⟨v, rest⟩ <;> simp only [hs] at h
    · subst h
      exact ⟨fun _ => ⟨rfl, rfl, Or.inl (hs ▸ rfl)⟩, fun hf => Bool.noConfusion hf,
        fun hf => Bool.noConfusion hf⟩
    · rcases get_register_split { s with stack := rest } with ⟨a, -, h1⟩ | h1 | h1 <;>
        simp only [h1] at h <;> subst h
      · exact ⟨fun hf => Bool.noConfusion hf, fun _ _ => rfl,
          fun _ hreg hstk _ => setReg_bound hreg (hstk v (List.mem_cons_self v rest))⟩
      · exact ⟨fun _ => ⟨rfl, rfl, Or.inr ⟨rfl, rfl⟩⟩, fun hf => Bool.noConfusion hf,
          fun hf => Bool.noConfusion hf⟩
      · exact ⟨fun _ => ⟨rfl, rfl, Or.inr ⟨rfl, rfl⟩⟩, fun hf => Bool.noConfusion hf,
          fun hf => Bool.noConfusion hf⟩
  · -- EQ
    rcases get_register_split s with ⟨a, -, h1⟩ | h1 | h1 <;> simp only [h1] at h
    · rcases get_split { s with pc := s.pc + 1 } with ⟨b, h2, -⟩ | h2 | h2 <;>
        simp only [h2] at h
      · rcases get_split { s with pc := s.pc + 1 + 1 } with ⟨c, h3, -⟩ | h3 | h3 <;>
          simp only [h3] at h <;> subst h
        · exact ⟨fun hf => Bool.noConfusion hf, fun _ _ => rfl,
            fun _ hreg _ _ => setReg_bound hreg (by split <;> norm_num)⟩
        · exact ⟨fun _ => ⟨rfl, rfl, Or.inl rfl⟩, fun hf => Bool.noConfusion hf,
            fun hf => Bool.noConfusion hf⟩
        · exact ⟨fun _ => ⟨rfl, rfl, Or.inl rfl⟩, fun hf => Bool.noConfusion hf,
            fun hf => Bool.noConfusion hf⟩
      · subst h
        exact ⟨fun _ => ⟨rfl, rfl, Or.inl rfl⟩, fun hf => Bool.noConfusion hf,
          fun hf => Bool.noConfusion hf⟩
      · subst h
        exact ⟨fun _ => ⟨rfl, rfl, Or.inl rfl⟩, fun hf => Bool.noConfusion hf,
          fun hf => Bool.noConfusion hf⟩
    · subst h
      exact ⟨fun _ => ⟨rfl, rfl, Or.inl rfl⟩, fun hf => Bool.noConfusion hf,
        fun hf => Bool.noConfusion hf⟩
    · subst h
      exact ⟨fun _ => ⟨rfl, rfl, Or.inl rfl⟩, fun hf => Bool.noConfusion hf,
        fun hf => Bool.noConfusion hf⟩
  · -- GT
    rcases get_register_split s with ⟨a, -, h1⟩ | h1 | h1 <;> simp only [h1] at h
    · rcases get_split { s with pc := s.pc + 1 } with ⟨b, h2, -⟩ | h2 | h2 <;>
        simp only [h2] at h
      · rcases get_split { s with pc := s.pc + 1 + 1 } with ⟨c, h3, -⟩ | h3 | h3 <;>
          simp only [h3] at h <;> subst h
        · exact ⟨fun hf => Bool.noConfusion hf, fun _ _ => rfl,
            fun _ hreg _ _ => setReg_bound hreg (by split <;> norm_num)⟩
        · exact ⟨fun _ => ⟨rfl, rfl, Or.inl rfl⟩, fun hf => Bool.noConfusion hf,
            fun hf => Bool.noConfusion hf⟩
        · exact ⟨fun _ => ⟨rfl, rfl, Or.inl rfl⟩, fun hf => Bool.noConfusion hf,
            fun hf => Bool.noConfusion hf⟩
      · subst h
        exact ⟨fun _ => ⟨rfl, rfl, Or.inl rfl⟩, fun hf => Bool.noConfusion hf,
          fun hf => Bool.noConfusion hf⟩
      · subst h
        exact ⟨fun _ => ⟨rfl, rfl, Or.inl rfl⟩, fun hf => Bool.noConfusion hf,
          fun hf => Bool.noConfusion hf⟩
    · subst h
      exact ⟨fun _ => ⟨rfl, rfl, Or.inl rfl⟩, fun hf => Bool.noConfusion hf,
        fun hf => Bool.noConfusion hf⟩
    · subst h
      exact ⟨fun _ => ⟨rfl, rfl, Or.inl rfl⟩, fun hf => Bool.noConfusion hf,
        fun hf => Bool.noConfusion hf⟩
  · -- JMP
    rcases get_split s with ⟨a, h1, -⟩ | h1 | h1 <;> simp only [h1] at h <;> subst h
    · exact ⟨fun hf => Bool.noConfusion hf, fun _ _ => rfl, fun _ hreg _ _ => hreg⟩
    · exact ⟨fun _ => ⟨rfl, rfl, Or.inl rfl⟩, fun hf => Bool.noConfusion hf,
        fun hf => Bool.noConfusion hf⟩
    · exact ⟨fun _ => ⟨rfl, rfl, Or.inl rfl⟩, fun hf => Bool.noConfusion hf,
        fun hf => Bool.noConfusion hf⟩
  · -- JT
    rcases get_split s with ⟨a, h1, -⟩ | h1 | h1 <;> simp only [h1] at h
    · rcases get_split { s with pc := s.pc + 1 } with ⟨b, h2, -⟩ | h2 | h2 <;>
        simp only [h2] at h
      · split at h <;> subst h <;>
          exact ⟨fun hf => Bool.noConfusion hf, fun _ _ => rfl, fun _ hreg _ _ => hreg⟩
      · subst h
        exact ⟨fun _ => ⟨rfl, rfl, Or.inl rfl⟩, fun hf => Bool.noConfusion hf,
          fun hf => Bool.noConfusion hf⟩
      · subst h
        exact ⟨fun _ => ⟨rfl, rfl, Or.inl rfl⟩, fun hf => Bool.noConfusion hf,
          fun hf => Bool.noConfusion hf⟩
    · subst h
      exact ⟨fun _ => ⟨rfl, rfl, Or.inl rfl⟩, fun hf => Bool.noConfusion hf,
        fun hf => Bool.noConfusion hf⟩
    · subst h
      exact ⟨fun _ => ⟨rfl, rfl, Or.inl rfl⟩, fun hf => Bool.noConfusion hf,
        fun hf => Bool.noConfusion hf⟩
  · -- JF
    rcases get_split s with ⟨a, h1, -⟩ | h1 | h1 <;> simp only [h1] at h
    · rcases get_split { s with pc := s.pc + 1 } with ⟨b, h2, -⟩ | h2 | h2 <;>
        simp only [h2] at h
      · split at h <;> subst h <;>
          exact ⟨fun hf => Bool.noConfusion hf, fun _ _ => rfl, fun _ hreg _ _ => hreg⟩
      · subst h
        exact ⟨fun _ => ⟨rfl, rfl, Or.inl rfl⟩, fun hf => Bool.noConfusion hf,
          fun hf => Bool.noConfusion hf⟩
      · subst h
        exact ⟨fun _ => ⟨rfl, rfl, Or.inl rfl⟩, fun hf => Bool.noConfusion hf,
          fun hf => Bool.noConfusion hf⟩
    · subst h
      exact ⟨fun _ => ⟨rfl, rfl, Or.inl rfl⟩, fun hf => Bool.noConfusion hf,
        fun hf => Bool.noConfusion hf⟩
    · subst h
      exact ⟨fun _ => ⟨rfl, rfl, Or.inl rfl⟩, fun hf => Bool.noConfusion hf,
        fun hf => Bool.noConfusion hf⟩
  · -- ADD
    rcases get_register_split s with ⟨a, -, h1⟩ | h1 | h1 <;> simp only [h1] at h
    · rcases get_split { s with pc := s.pc + 1 } with ⟨b, h2, -⟩ | h2 | h2 <;>
        simp only [h2] at h
      · rcases get_split { s with pc := s.pc + 1 + 1 } with ⟨c, h3, -⟩ | h3 | h3 <;>
          simp only [h3] at h
        · split at h <;> subst h
          · exact ⟨fun hf => Bool.noConfusion hf, fun _ _ => rfl,
              fun _ hreg _ _ => setReg_bound hreg (by simp only [BASE]; omega)⟩
          · exact ⟨fun _ => ⟨rfl, rfl, Or.inl rfl⟩, fun hf => Bool.noConfusion hf,
              fun hf => Bool.noConfusion hf⟩
        · subst h
          exact ⟨fun _ => ⟨rfl, rfl, Or.inl rfl⟩, fun hf => Bool.noConfusion hf,
            fun hf => Bool.noConfusion hf⟩
        · subst h
          exact ⟨fun _ => ⟨rfl, rfl, Or.inl rfl⟩, fun hf => Bool.noConfusion hf,
            fun hf => Bool.noConfusion hf⟩
      · subst h
        exact ⟨fun _ => ⟨rfl, rfl, Or.inl rfl⟩, fun hf => Bool.noConfusion hf,
          fun hf => Bool.noConfusion hf⟩
      · subst h
        exact ⟨fun _ => ⟨rfl, rfl, Or.inl rfl⟩, fun hf => Bool.noConfusion hf,
          fun hf => Bool.noConfusion hf⟩
    · subst h
      exact ⟨fun _ => ⟨rfl, rfl, Or.inl rfl⟩, fun hf => Bool.noConfusion hf,
        fun hf => Bool.noConfusion hf⟩
    · subst h
      exact ⟨fun _ => ⟨rfl, rfl, Or.inl rfl⟩, fun hf => Bool.noConfusion hf,
        fun hf => Bool.noConfusion hf⟩
  · -- MULT
    rcases get_register_split s with ⟨a, -, h1⟩ | h1 | h1 <;> simp only [h1] at h
    · rcases get_split { s with pc := s.pc + 1 } with ⟨b, h2, -⟩ | h2 | h2 <;>
        simp only [h2] at h
      · rcases get_split { s with pc := s.pc + 1 + 1 } with ⟨c, h3, -⟩ | h3 | h3 <;>
          simp only [h3] at h <;> subst h
        · exact ⟨fun hf => Bool.noConfusion hf, fun _ _ => rfl,
            fun _ hreg _ _ => setReg_bound hreg (by simp only [BASE, U16MOD]; omega)⟩
        · exact ⟨fun _ => ⟨rfl, rfl, Or.inl rfl⟩, fun hf => Bool.noConfusion hf,
            fun hf => Bool.noConfusion hf⟩
        · exact ⟨fun _ => ⟨rfl, rfl, Or.inl rfl⟩, fun hf => Bool.noConfusion hf,
            fun hf => Bool.noConfusion hf⟩
      · subst h
        exact ⟨fun _ => ⟨rfl, rfl, Or.inl rfl⟩, fun hf => Bool.noConfusion hf,
          fun hf => Bool.noConfusion hf⟩
      · subst h
        exact ⟨fun _ => ⟨rfl, rfl, Or.inl rfl⟩, fun hf => Bool.noConfusion hf,
          fun hf => Bool.noConfusion hf⟩
    · subst h
      exact ⟨fun _ => ⟨rfl, rfl, Or.inl rfl⟩, fun hf => Bool.noConfusion hf,
        fun hf => Bool.noConfusion hf⟩
    · subst h
      exact ⟨fun _ => ⟨rfl, rfl, Or.inl rfl⟩, fun hf => Bool.noConfusion hf,
        fun hf => Bool.noConfusion hf⟩
  · -- MOD
    rcases get_register_split s with ⟨a, -, h1⟩ | h1 | h1 <;> simp only [h1] at h
    · rcases get_split { s with pc := s.pc + 1 } with ⟨b, h2, hb⟩ | h2 | h2 <;>
        simp only [h2] at h
      · rcases get_split { s with pc := s.pc + 1 + 1 } with ⟨c, h3, -⟩ | h3 | h3 <;>
          simp only [h3] at h
        · split at h <;> subst h
          · exact ⟨fun _ => ⟨rfl, rfl, Or.inl rfl⟩, fun hf => Bool.noConfusion hf,
              fun hf => Bool.noConfusion hf⟩
          · exact ⟨fun hf => Bool.noConfusion hf, fun _ _ => rfl,
              fun _ hreg _ _ => setReg_bound hreg
                (lt_of_le_of_lt (Nat.mod_le b c) (operand_bound hreg hb))⟩
        · subst h
          exact ⟨fun _ => ⟨rfl, rfl, Or.inl rfl⟩, fun hf => Bool.noConfusion hf,
            fun hf => Bool.noConfusion hf⟩
        · subst h
          exact ⟨fun _ => ⟨rfl, rfl, Or.inl rfl⟩, fun hf => Bool.noConfusion hf,
            fun hf => Bool.noConfusion hf⟩
      · subst h
        exact ⟨fun _ => ⟨rfl, rfl, Or.inl rfl⟩, fun hf => Bool.noConfusion hf,
          fun hf => Bool.noConfusion hf⟩
      · subst h
        exact ⟨fun _ => ⟨rfl, rfl, Or.inl rfl⟩, fun hf => Bool.noConfusion hf,
          fun hf => Bool.noConfusion hf⟩
    · subst h
      exact ⟨fun _ => ⟨rfl, rfl, Or.inl rfl⟩, fun hf => Bool.noConfusion hf,
        fun hf => Bool.noConfusion hf⟩
    · subst h
      exact ⟨fun _ => ⟨rfl, rfl, Or.inl rfl⟩, fun hf => Bool.noConfusion hf,
        fun hf => Bool.noConfusion hf⟩
  · -- AND
    rcases get_register_split s with ⟨a, -, h1⟩ | h1 | h1 <;> simp only [h1] at h
    · rcases get_split { s with pc := s.pc + 1 } with ⟨b, h2, hb⟩ | h2 | h2 <;>
        simp only [h2] at h
      · rcases get_split { s with pc := s.pc + 1 + 1 } with ⟨c, h3, -⟩ | h3 | h3 <;>
          simp only [h3] at h <;> subst h
        · exact ⟨fun hf => Bool.noConfusion hf, fun _ _ => rfl,
            fun _ hreg _ _ => setReg_bound hreg
              (lt_of_le_of_lt Nat.and_le_left (operand_bound hreg hb))⟩
        · exact ⟨fun _ => ⟨rfl, rfl, Or.inl rfl⟩, fun hf => Bool.noConfusion hf,
            fun hf => Bool.noConfusion hf⟩
        · exact ⟨fun _ => ⟨rfl, rfl, Or.inl rfl⟩, fun hf => Bool.noConfusion hf,
            fun hf => Bool.noConfusion hf⟩
      · subst h
        exact ⟨fun _ => ⟨rfl, rfl, Or.inl rfl⟩, fun hf => Bool.noConfusion hf,
          fun hf => Bool.noConfusion hf⟩
      · subst h
        exact ⟨fun _ => ⟨rfl, rfl, Or.inl rfl⟩, fun hf => Bool.noConfusion hf,
          fun hf => Bool.noConfusion hf⟩
    · subst h
      exact ⟨fun _ => ⟨rfl, rfl, Or.inl rfl⟩, fun hf => Bool.noConfusion hf,
        fun hf => Bool.noConfusion hf⟩
    · subst h
      exact ⟨fun _ => ⟨rfl, rfl, Or.inl rfl⟩, fun hf => Bool.noConfusion hf,
        fun hf => Bool.noConfusion hf⟩
  · -- OR
    rcases get_register_split s with ⟨a, -, h1⟩ | h1 | h1 <;> simp only [h1] at h
    · rcases get_split { s with pc := s.pc + 1 } with ⟨b, h2, hb⟩ | h2 | h2 <;>
        simp only [h2] at h
      · rcases get_split { s with pc := s.pc + 1 + 1 } with ⟨c, h3, hc⟩ | h3 | h3 <;>
          simp only [h3] at h <;> subst h
        · exact ⟨fun hf => Bool.noConfusion hf, fun _ _ => rfl,
            fun _ hreg _ _ => setReg_bound hreg
              (or_bound (operand_bound hreg hb) (operand_bound hreg hc))⟩
        · exact ⟨fun _ => ⟨rfl, rfl, Or.inl rfl⟩, fun hf => Bool.noConfusion hf,
            fun hf => Bool.noConfusion hf⟩
        · exact ⟨fun _ => ⟨rfl, rfl, Or.inl rfl⟩, fun hf => Bool.noConfusion hf,
            fun hf => Bool.noConfusion hf⟩
      · subst h
        exact ⟨fun _ => ⟨rfl, rfl, Or.inl rfl⟩, fun hf => Bool.noConfusion hf,
          fun hf => Bool.noConfusion hf⟩
      · subst h
        exact ⟨fun _ => ⟨rfl, rfl, Or.inl rfl⟩, fun hf => Bool.noConfusion hf,
          fun hf => Bool.noConfusion hf⟩
    · subst h
      exact ⟨fun _ => ⟨rfl, rfl, Or.inl rfl⟩, fun hf => Bool.noConfusion hf,
        fun hf => Bool.noConfusion hf⟩
    · subst h
      exact ⟨fun _ => ⟨rfl, rfl, Or.inl rfl⟩, fun hf => Bool.noConfusion hf,
        fun hf => Bool.noConfusion hf⟩
  · -- NOT
    rcases get_register_split s with ⟨a, -, h1⟩ | h1 | h1 <;> simp only [h1] at h
    · rcases get_split { s with pc := s.pc + 1 } with ⟨b, h2, -⟩ | h2 | h2 <;>
        simp only [h2] at h <;> subst h
      · exact ⟨fun hf => Bool.noConfusion hf, fun _ _ => rfl,
          fun _ hreg _ _ => setReg_bound hreg
            (lt_of_le_of_lt Nat.and_le_right (by norm_num [BASE]))⟩
      · exact ⟨fun _ => ⟨rfl, rfl, Or.inl rfl⟩, fun hf => Bool.noConfusion hf,
          fun hf => Bool.noConfusion hf⟩
      · exact ⟨fun _ => ⟨rfl, rfl, Or.inl rfl⟩, fun hf => Bool.noConfusion hf,
          fun hf => Bool.noConfusion hf⟩
    · subst h
      exact ⟨fun _ => ⟨rfl, rfl, Or.inl rfl⟩, fun hf => Bool.noConfusion hf,
        fun hf => Bool.noConfusion hf⟩
    · subst h
      exact ⟨fun _ => ⟨rfl, rfl, Or.inl rfl⟩, fun hf => Bool.noConfusion hf,
        fun hf => Bool.noConfusion hf⟩
  · -- RMEM
    rcases get_register_split s with ⟨a, -, h1⟩ | h1 | h1 <;> simp only [h1] at h
    · rcases get_split { s with pc := s.pc + 1 } with ⟨b, h2, -⟩ | h2 | h2 <;>
        simp only [h2] at h
      · split at h <;> subst h
        · exact ⟨fun hf => Bool.noConfusion hf, fun _ _ => rfl,
            fun _ _ _ h15 => absurd rfl h15⟩
        · exact ⟨fun _ => ⟨rfl, rfl, Or.inl rfl⟩, fun hf => Bool.noConfusion hf,
            fun hf => Bool.noConfusion hf⟩
      · subst h
        exact ⟨fun _ => ⟨rfl, rfl, Or.inl rfl⟩, fun hf => Bool.noConfusion hf,
          fun hf => Bool.noConfusion hf⟩
      · subst h
        exact ⟨fun _ => ⟨rfl, rfl, Or.inl rfl⟩, fun hf => Bool.noConfusion hf,
          fun hf => Bool.noConfusion hf⟩
    · subst h
      exact ⟨fun _ => ⟨rfl, rfl, Or.inl rfl⟩, fun hf => Bool.noConfusion hf,
        fun hf => Bool.noConfusion hf⟩
    · subst h
      exact ⟨fun _ => ⟨rfl, rfl, Or.inl rfl⟩, fun hf => Bool.noConfusion hf,
        fun hf => Bool.noConfusion hf⟩
  · -- WMEM
    rcases get_split s with ⟨a, h1, -⟩ | h1 | h1 <;> simp only [h1] at h
    · rcases get_split { s with pc := s.pc + 1 } with ⟨b, h2, -⟩ | h2 | h2 <;>
        simp only [h2] at h
      · split at h <;> subst h
        · exact ⟨fun hf => Bool.noConfusion hf, fun _ h16 => absurd rfl h16,
            fun _ hreg _ _ => hreg⟩
        · exact ⟨fun _ => ⟨rfl, rfl, Or.inl rfl⟩, fun hf => Bool.noConfusion hf,
            fun hf => Bool.noConfusion hf⟩
      · subst h
        exact ⟨fun _ => ⟨rfl, rfl, Or.inl rfl⟩, fun hf => Bool.noConfusion hf,
          fun hf => Bool.noConfusion hf⟩
      · subst h
        exact ⟨fun _ => ⟨rfl, rfl, Or.inl rfl⟩, fun hf => Bool.noConfusion hf,
          fun hf => Bool.noConfusion hf⟩
    · subst h
      exact ⟨fun _ => ⟨rfl, rfl, Or.inl rfl⟩, fun hf => Bool.noConfusion hf,
        fun hf => Bool.noConfusion hf⟩
    · subst h
      exact ⟨fun _ => ⟨rfl, rfl, Or.inl rfl⟩, fun hf => Bool.noConfusion hf,
        fun hf => Bool.noConfusion hf⟩
  · -- CALL
    rcases get_split s with ⟨a, h1, -⟩ | h1 | h1 <;> simp only [h1] at h <;> subst h
    · exact ⟨fun hf => Bool.noConfusion hf, fun _ _ => rfl, fun _ hreg _ _ => hreg⟩
    · exact ⟨fun _ => ⟨rfl, rfl, Or.inl rfl⟩, fun hf => Bool.noConfusion hf,
        fun hf => Bool.noConfusion hf⟩
    · exact ⟨fun _ => ⟨rfl, rfl, Or.inl rfl⟩, fun hf => Bool.noConfusion hf,
        fun hf => Bool.noConfusion hf⟩
  · -- RET
    rcases hs : s.stack with - | ⟨v, rest⟩ <;> simp only [hs] at h <;> subst h
    · exact ⟨fun hf => Bool.noConfusion hf, fun _ _ => rfl, fun _ hreg _ _ => hreg⟩
    · exact ⟨fun hf => Bool.noConfusion hf, fun _ _ => rfl, fun _ hreg _ _ => hreg⟩
  · -- OUT
    rcases get_split s with ⟨a, h1, -⟩ | h1 | h1 <;> simp only [h1] at h <;> subst h
    · exact ⟨fun hf => Bool.noConfusion hf, fun _ _ => rfl, fun _ hreg _ _ => hreg⟩
    · exact ⟨fun _ => ⟨rfl, rfl, Or.inl rfl⟩, fun hf => Bool.noConfusion hf,
        fun hf => Bool.noConfusion hf⟩
    · exact ⟨fun _ => ⟨rfl, rfl, Or.inl rfl⟩, fun hf => Bool.noConfusion hf,
        fun hf => Bool.noConfusion hf⟩
  · -- IN
    rcases get_register_split s with ⟨a, -, h1⟩ | h1 | h1 <;> simp only [h1] at h
    · rcases hi : s.input with - | ⟨v, rest⟩ <;> simp only [hi] at h <;> subst h
      · exact ⟨fun _ => ⟨rfl, rfl, Or.inl rfl⟩, fun hf => Bool.noConfusion hf,
          fun hf => Bool.noConfusion hf⟩
      · exact ⟨fun hf => Bool.noConfusion hf, fun _ _ => rfl,
          fun _ hreg _ _ => setReg_bound hreg (by simp only [BASE]; omega)⟩
    · subst h
      exact ⟨fun _ => ⟨rfl, rfl, Or.inl rfl⟩, fun hf => Bool.noConfusion hf,
        fun hf => Bool.noConfusion hf⟩
    · subst h
      exact ⟨fun _ => ⟨rfl, rfl, Or.inl rfl⟩, fun hf => Bool.noConfusion hf,
        fun hf => Bool.noConfusion hf⟩
  · -- NOOP
    subst h
    exact ⟨fun hf => Bool.noConfusion hf, fun _ _ => rfl, fun _ hreg _ _ => hreg⟩
  · -- invalid opcode
    subst h
    exact ⟨fun _ => ⟨rfl, rfl, Or.inl rfl⟩, fun hf => Bool.noConfusion hf,
      fun hf => Bool.noConfusion hf⟩

/-- Running the load loop on a stream of full two-byte reads followed by
any non-`Ok(2)` outcome (end of stream, an odd trailing byte, or a read
error) succeeds, and no memory cell at or past `i + pre.length` is
touched. -/
theorem loadLoop_frame (pre : List (Nat × Nat)) (rest : List ReadResult) (m : Nat → Nat)
    (i : Nat) (hpre : i + pre.length ≤ MEM_SIZE)
    (hstop : ∀ r, rest.head? = some r → r.isOk2 = false) :
    ∃ m2, loadLoop (pre.map (fun p => ReadResult.ok2 p.1 p.2) ++ rest) m i = Except.ok m2 ∧
      ∀ j, i + pre.length ≤ j → m2 j = m j := by
  induction pre generalizing m i with
  | nil =>
    simp only [List.map_nil, List.nil_append]
    cases rest with
    | nil => exact ⟨m, rfl, fun j _ => rfl⟩
    | cons r rs =>
      have hr := hstop r rfl
      cases r with
      | ok2 lo hi => exact absurd hr (by simp [ReadResult.isOk2])
      | okShort n => exact ⟨m, rfl, fun j _ => rfl⟩
      | err => exact ⟨m, rfl, fun j _ => rfl⟩
  | cons p pre ih =>
    simp only [List.map_cons, List.cons_append, loadLoop]
    rw [if_pos (by simp only [List.length_cons] at hpre; omega)]
    obtain ⟨m2, hrun, hframe⟩ :=
      ih (fun j => if j = i then p.2 <<< 8 ||| p.1 else m j) (i + 1)
        (by simp only [List.length_cons] at hpre; omega)
    refine ⟨m2, hrun, fun j hj => ?_⟩
    rw [hframe j (by simp only [List.length_cons] at hj; omega)]
    rw [if_neg (by simp only [List.length_cons] at hj; omega)]

/-! ### The claims -/

/-- Claim C10: for every instruction other than WMEM (opcode 16) that
executes without fault, all 32768 memory cells are unchanged by its
execution; during `run`, only the WMEM arm writes to memory. -/
theorem c10_memory_frame (s : VM) (hop : s.memory s.pc ≠ 16)
    (hnf : (step s).isFault = false) :
    ∀ j, (step s).state.memory j = s.memory j := by
  by_cases hpc : s.pc < MEM_SIZE
  · have heq : step s = execOp (s.memory s.pc) { s with pc := s.pc + 1 } := by
      unfold step
      rw [if_pos hpc]
    rw [heq] at hnf ⊢
    intro j
    rw [(execOp_effects rfl).2.1 hnf hop]
  · have heq : step s = StepResult.fault (Fault.oobIndex s.pc) s := by
      unfold step
      rw [if_neg hpc]
    rw [heq] at hnf
    exact Bool.noConfusion hnf

/-- Witness for C10: a SET instruction leaves all memory unchanged. -/
theorem c10_witness :
    c10Ex.memory c10Ex.pc ≠ 16 ∧ (step c10Ex).isFault = false ∧
    ∀ j, (step c10Ex).state.memory j = c10Ex.memory j :=
  ⟨by decide, rfl, c10_memory_frame c10Ex (by decide) rfl⟩

/-- Claim C1, counterexample: RMEM copies a raw 16-bit memory cell into
a register without any reduction, so starting from a perfectly healthy
state (all registers zero, empty stack) a single faultless RMEM leaves
register 0 holding 40000 ≥ 32768. -/
theorem c1_counterexample :
    (∀ i, rmemEx.registers i < 32768) ∧ rmemEx.stack = [] ∧
    (step rmemEx).isFault = false ∧
    ¬ (∀ i, (step rmemEx).state.registers i < 32768) := by
  refine ⟨fun i => by norm_num [rmemEx, vmOf], rfl, rfl, fun hall => ?_⟩
  have h0 := hall 0
  have he : (step rmemEx).state.registers 0 = 40000 := rfl
  rw [he] at h0
  omega

/-- Claim C1, amended: provided every register and every stack entry
holds a value in 0..=32767 beforehand, every instruction other than RMEM
(opcode 15) executed without fault leaves every register in 0..=32767;
RMEM itself copies the raw memory cell and may store a larger value. -/
theorem c1_register_range (s : VM) (hreg : ∀ i, s.registers i < 32768)
    (hstk : ∀ v ∈ s.stack, v < 32768) (hop : s.memory s.pc ≠ 15)
    (hnf : (step s).isFault = false) :
    ∀ i, (step s).state.registers i < 32768 := by
  by_cases hpc : s.pc < MEM_SIZE
  · have heq : step s = execOp (s.memory s.pc) { s with pc := s.pc + 1 } := by
      unfold step
      rw [if_pos hpc]
    rw [heq] at hnf ⊢
    exact (execOp_effects rfl).2.2 hnf hreg hstk hop
  · have heq : step s = StepResult.fault (Fault.oobIndex s.pc) s := by
      unfold step
      rw [if_neg hpc]
    rw [heq] at hnf
    exact Bool.noConfusion hnf

/-- Witness for the amended C1: a faultless ADD keeps all registers in
range. -/
theorem c1_witness :
    (step c1WitEx).isFault = false ∧ ∀ i, (step c1WitEx).state.registers i < 32768 :=
  ⟨rfl, c1_register_range c1WitEx (fun i => by norm_num [c1WitEx, vmOf])
    (fun v hv => by simp [c1WitEx, vmOf] at hv) (by decide) rfl⟩

/-- Claim C5, counterexample: POP pops the stack BEFORE decoding its
write operand, so when the write operand is invalid (the literal 5), the
state at the abort point has already lost the top of the stack. -/
theorem c5_counterexample :
    popEx.stack = [7] ∧
    step popEx = StepResult.fault (Fault.badRegister 5) { popEx with stack := [], pc := 2 } ∧
    ({ popEx with stack := ([] : List Nat), pc := 2 } : VM).stack ≠ popEx.stack := by
  exact ⟨rfl, rfl, by decide⟩

/-- Claim C5, amended: at the point of any decode or execution fault,
registers and memory are exactly as before the instruction; the stack is
also unchanged for every opcode except POP (3), which removes the top
stack element before decoding its write operand, so a faulting POP
leaves the stack popped once. -/
theorem c5_decode_frame (s : VM) (f : Fault) (t : VM)
    (h : step s = StepResult.fault f t) :
    t.memory = s.memory ∧ t.registers = s.registers ∧
    (s.memory s.pc ≠ 3 → t.stack = s.stack) ∧
    (t.stack = s.stack ∨ t.stack = s.stack.tail) := by
  by_cases hpc : s.pc < MEM_SIZE
  · have heq : step s = execOp (s.memory s.pc) { s with pc := s.pc + 1 } := by
      unfold step
      rw [if_pos hpc]
    rw [heq] at h
    obtain ⟨hm, hrg, hstk⟩ := (execOp_effects h).1 rfl
    refine ⟨hm, hrg, fun h3 => ?_, ?_⟩
    · rcases hstk with h' | ⟨h3', -⟩
      · exact h'
      · exact absurd h3' h3
    · rcases hstk with h' | ⟨-, h'⟩
      · exact Or.inl h'
      · exact Or.inr h'
  · have heq : step s = StepResult.fault (Fault.oobIndex s.pc) s := by
      unfold step
      rw [if_neg hpc]
    rw [heq] at h
    cases h
    exact ⟨rfl, rfl, fun _ => rfl, Or.inl rfl⟩

/-- Witness for the amended C5: MOD by zero faults with registers,
memory and stack untouched. -/
theorem c5_witness :
    ({ modEx with pc := 4 } : VM).memory = modEx.memory ∧
    ({ modEx with pc := 4 } : VM).registers = modEx.registers ∧
    (modEx.memory modEx.pc ≠ 3 → ({ modEx with pc := 4 } : VM).stack = modEx.stack) ∧
    (({ modEx with pc := 4 } : VM).stack = modEx.stack ∨
      ({ modEx with pc := 4 } : VM).stack = modEx.stack.tail) :=
  c5_decode_frame modEx Fault.divideByZero { modEx with pc := 4 } rfl

/-- Claim C2: for read-operand values `b, c` in 0..=32767, MULT stores
exactly `(b * c) % 32768` into `register[a]`: the wrapping 16-bit
multiplication followed by the reduction modulo `BASE` agrees with the
mathematical product modulo 2^15, because 32768 divides 65536. -/
theorem c2_mult_exact (s s1 s2 s3 : VM) (a b c : Nat)
    (hpc : s.pc < MEM_SIZE) (hop : s.memory s.pc = 10)
    (h1 : VM.get_register { s with pc := s.pc + 1 } = Except.ok (a, s1))
    (h2 : s1.get = Except.ok (b, s2))
    (h3 : s2.get = Except.ok (c, s3))
    (hb : b < 32768) (hc : c < 32768) :
    step s = StepResult.ok (s3.setReg a (b * c % 32768)) := by
  have heq : step s = execOp (s.memory s.pc) { s with pc := s.pc + 1 } := by
    unfold step
    rw [if_pos hpc]
  rw [heq, hop]
  simp only [execOp, h1, h2, h3]
  rw [show b * c % U16MOD % BASE = b * c % 32768 from by simp only [BASE, U16MOD]; omega]

/-- Witness for C2: `MULT r0, 300, 200` stores `60000 % 32768 = 27232`. -/
theorem c2_witness :
    step multEx = StepResult.ok (VM.setReg { multEx with pc := 4 } 0 (300 * 200 % 32768)) :=
  c2_mult_exact multEx { multEx with pc := 2 } { multEx with pc := 3 } { multEx with pc := 4 }
    0 300 200 (by decide) rfl rfl rfl rfl (by decide) (by decide)

/-- Claim C3, counterexample: the address decoder performs no range
check.  With register 0 holding 40000, `JMP r0` does not fail at decode
time with any typed error — the step succeeds and PC is simply set to
the out-of-range value 40000. -/
theorem c3_counterexample :
    32768 ≤ jmpEx.registers 0 ∧
    step jmpEx = StepResult.ok { jmpEx with pc := 40000 } ∧
    (step jmpEx).isFault = false := by
  refine ⟨by norm_num [jmpEx, vmOf], rfl, rfl⟩

/-- Claim C3, amended: `get_address` performs no range check at all —
a resolved value ≥ 32768 is returned as-is.  For JMP the PC is set to
that value and the very next fetch aborts with the Rust index panic
(out-of-bounds), not with a typed decode-time address error. -/
theorem c3_address_unchecked (s s1 : VM) (v : Nat)
    (hpc : s.pc < MEM_SIZE) (hop : s.memory s.pc = 6)
    (h : VM.get_address { s with pc := s.pc + 1 } = Except.ok (v, s1))
    (h32 : 32768 ≤ v) :
    step s = StepResult.ok { s1 with pc := v } ∧
    step { s1 with pc := v } = StepResult.fault (Fault.oobIndex v) { s1 with pc := v } := by
  constructor
  · have heq : step s = execOp (s.memory s.pc) { s with pc := s.pc + 1 } := by
      unfold step
      rw [if_pos hpc]
    rw [heq, hop]
    simp only [execOp, VM.get_address] at h ⊢
    rw [h]
  · unfold step
    rw [if_neg (show ¬ ({ s1 with pc := v } : VM).pc < MEM_SIZE from by
      show ¬ v < MEM_SIZE
      simp only [MEM_SIZE]
      omega)]

/-- Witness for the amended C3: `JMP r0` with `r0 = 40000` succeeds and
the following fetch faults out of bounds. -/
theorem c3_witness :
    step jmpEx = StepResult.ok { jmpEx with pc := 40000 } ∧
    step ({ jmpEx with pc := 40000 } : VM) =
      StepResult.fault (Fault.oobIndex 40000) { jmpEx with pc := 40000 } :=
  c3_address_unchecked jmpEx { jmpEx with pc := 2 } 40000 (by decide) rfl rfl (by decide)

/-- Claim C4, counterexample: a read error from the byte source is NOT
surfaced by `load` — the loop's catch-all arm breaks on `Err(_)` exactly
as it does on end-of-stream, and `load` returns success with memory
untouched. -/
theorem c4_counterexample :
    load [ReadResult.err] c4Ex = Except.ok c4Ex ∧
    ∀ f, load [ReadResult.err] c4Ex ≠ Except.error f := by
  constructor
  · rfl
  · intro f h
    rw [show load [ReadResult.err] c4Ex = Except.ok c4Ex from rfl] at h
    exact Except.noConfusion h

/-- Claim C4, amended: a read error during the load loop is treated
exactly like an early end-of-stream — the loop stops, `load` returns
success, and memory at and past the loaded region is unchanged. -/
theorem c4_load_stops (pre : List (Nat × Nat)) (rest : List ReadResult) (s : VM)
    (hpre : pre.length ≤ MEM_SIZE)
    (hstop : ∀ r, rest.head? = some r → r.isOk2 = false) :
    ∃ t, load (pre.map (fun p => ReadResult.ok2 p.1 p.2) ++ rest) s = Except.ok t ∧
      ∀ j, pre.length ≤ j → t.memory j = s.memory j := by
  obtain ⟨m2, hrun, hframe⟩ := loadLoop_frame pre rest s.memory 0 (by omega) hstop
  refine ⟨{ s with memory := m2 }, ?_, fun j hj => hframe j (by omega)⟩
  unfold load
  rw [hrun]

/-- Witness for the amended C4: one good word followed by a read error
loads successfully and leaves cells 1, 2, ... unchanged. -/
theorem c4_witness :
    ∃ t, load (([((1 : Nat), (2 : Nat))]).map (fun p => ReadResult.ok2 p.1 p.2) ++
        [ReadResult.err]) c4Ex = Except.ok t ∧
      ∀ j, ([((1 : Nat), (2 : Nat))]).length ≤ j → t.memory j = c4Ex.memory j :=
  c4_load_stops [(1, 2)] [ReadResult.err] c4Ex (by decide)
    (fun r hr => by cases hr; rfl)

/-- Claim C6: JT (7) and JF (8) consume both operands unconditionally —
the state after decoding has `pc = pc₀ + 3` — and only then assign PC to
the address operand exactly when the condition holds (`b ≠ 0` for JT,
`b = 0` for JF); when the condition fails, PC stays just after the
second operand. -/
theorem c6_jt_jf (s s1 s2 : VM) (b addr : Nat)
    (hpc : s.pc < MEM_SIZE)
    (hb : VM.get { s with pc := s.pc + 1 } = Except.ok (b, s1))
    (haddr : VM.get_address s1 = Except.ok (addr, s2)) :
    s2.pc = s.pc + 3 ∧
    (s.memory s.pc = 7 →
      step s = StepResult.ok (if b ≠ 0 then { s2 with pc := addr } else s2)) ∧
    (s.memory s.pc = 8 →
      step s = StepResult.ok (if b = 0 then { s2 with pc := addr } else s2)) := by
  unfold VM.get_address at haddr
  obtain rfl := get_ok_state hb
  obtain rfl := get_ok_state haddr
  have heq : step s = execOp (s.memory s.pc) { s with pc := s.pc + 1 } := by
    unfold step
    rw [if_pos hpc]
  refine ⟨rfl, fun hop => ?_, fun hop => ?_⟩
  · rw [heq, hop]
    simp only [execOp, VM.get_address, hb, haddr]
    split <;> rename_i hcond <;> simp [hcond]
  · rw [heq, hop]
    simp only [execOp, VM.get_address, hb, haddr]
    split <;> rename_i hcond <;> simp [hcond]

/-- Witness for C6: `JT 0, 6` takes the not-taken branch and leaves
`pc = 3`, just past both operands. -/
theorem c6_witness :
    ({ jtEx with pc := 3 } : VM).pc = jtEx.pc + 3 ∧
    (jtEx.memory jtEx.pc = 7 →
      step jtEx = StepResult.ok
        (if (0 : Nat) ≠ 0 then { jtEx with pc := 6 } else { jtEx with pc := 3 })) ∧
    (jtEx.memory jtEx.pc = 8 →
      step jtEx = StepResult.ok
        (if (0 : Nat) = 0 then { jtEx with pc := 6 } else { jtEx with pc := 3 })) :=
  c6_jt_jf jtEx { jtEx with pc := 2 } { jtEx with pc := 3 } 0 6 (by decide) rfl rfl

/-- Claim C7: a CALL to an address `t` holding a RET pushes the address
of the instruction following the CALL; the RET then pops it back, so the
pair restores PC to that address and leaves the stack exactly as before
the CALL. -/
theorem c7_call_ret (s s1 : VM) (t : Nat)
    (hpc : s.pc < MEM_SIZE) (hop : s.memory s.pc = 17)
    (ht : VM.get_address { s with pc := s.pc + 1 } = Except.ok (t, s1))
    (htm : t < MEM_SIZE) (hret : s.memory t = 18) :
    ∃ u, step s = StepResult.ok u ∧ u.stack = (s.pc + 2) :: s.stack ∧
      step u = StepResult.ok { u with pc := s.pc + 2, stack := s.stack } := by
  unfold VM.get_address at ht
  obtain rfl := get_ok_state ht
  have hmod : (s.pc + 1 + 1) % U16MOD = s.pc + 2 := by
    simp only [MEM_SIZE] at hpc
    simp only [U16MOD]
    omega
  refine ⟨{ s with stack := (s.pc + 2) :: s.stack, pc := t }, ?_, rfl, ?_⟩
  · have heq : step s = execOp (s.memory s.pc) { s with pc := s.pc + 1 } := by
      unfold step
      rw [if_pos hpc]
    rw [heq, hop]
    simp only [execOp, VM.get_address, ht]
    rw [hmod]
  · have heq2 : step ({ s with stack := (s.pc + 2) :: s.stack, pc := t } : VM) =
        execOp 18 { s with stack := (s.pc + 2) :: s.stack, pc := t + 1 } := by
      unfold step
      rw [if_pos (show t < MEM_SIZE from htm)]
      rw [show ({ s with stack := (s.pc + 2) :: s.stack, pc := t } : VM).memory t = 18
        from hret]
    rw [heq2]
    simp only [execOp]

/-- Witness for C7: `CALL 5` onto a RET at address 5 returns to address
2 with the original (empty) stack. -/
theorem c7_witness :
    ∃ u, step callEx = StepResult.ok u ∧ u.stack = (callEx.pc + 2) :: callEx.stack ∧
      step u = StepResult.ok { u with pc := callEx.pc + 2, stack := callEx.stack } :=
  c7_call_ret callEx { callEx with pc := 2 } 5 (by decide) rfl rfl (by decide) rfl

/-- Claim C8, counterexample: `OUT 200` does not emit one byte equal to
200 — `print!` sends the UTF-8 encoding of the char U+00C8, which is the
two bytes 195, 136. -/
theorem c8_counterexample :
    step outEx = StepResult.ok { outEx with pc := 2, output := [195, 136] } ∧
    ([(195 : Nat), 136]).length = 2 ∧
    [(195 : Nat), 136] ≠ [(200 : Nat)] := by
  exact ⟨rfl, rfl, by decide⟩

/-- Claim C8, amended: OUT emits the UTF-8 encoding of the code point
`b % 256` — exactly one byte equal to `b % 256` when it is below 128,
and the two bytes `192 + (b % 256) / 64`, `128 + (b % 256) % 64` when it
is in 128..=255. -/
theorem c8_out_utf8 (s s1 : VM) (b : Nat)
    (hpc : s.pc < MEM_SIZE) (hop : s.memory s.pc = 19)
    (hb : VM.get { s with pc := s.pc + 1 } = Except.ok (b, s1)) :
    step s = StepResult.ok { s1 with output := s1.output ++ utf8OfByte (b % 256) } ∧
    (b % 256 < 128 → utf8OfByte (b % 256) = [b % 256]) ∧
    (128 ≤ b % 256 → utf8OfByte (b % 256) = [192 + b % 256 / 64, 128 + b % 256 % 64]) := by
  refine ⟨?_, fun hlt => by unfold utf8OfByte; rw [if_pos hlt],
    fun hge => by unfold utf8OfByte; rw [if_neg (by omega)]⟩
  have heq : step s = execOp (s.memory s.pc) { s with pc := s.pc + 1 } := by
    unfold step
    rw [if_pos hpc]
  rw [heq, hop]
  simp only [execOp, hb]

/-- Witness for the amended C8: `OUT 65` emits the single byte 65. -/
theorem c8_witness :
    step outWitEx = StepResult.ok
      { ({ outWitEx with pc := 2 } : VM) with
        output := ({ outWitEx with pc := 2 } : VM).output ++ utf8OfByte (65 % 256) } ∧
    (65 % 256 < 128 → utf8OfByte (65 % 256) = [65 % 256]) ∧
    (128 ≤ 65 % 256 →
      utf8OfByte (65 % 256) = [192 + 65 % 256 / 64, 128 + 65 % 256 % 64]) :=
  c8_out_utf8 outWitEx { outWitEx with pc := 2 } 65 (by decide) rfl rfl

/-- Claim C9: under the precondition that every register holds a value
in 0..=32767, the read-operand decoder only returns values in 0..=32767,
so the sum computed by ADD is at most 65534 and the 16-bit addition
cannot overflow: executing an ADD never aborts with the overflow
fault. -/
theorem c9_add_no_overflow (s : VM) (hreg : ∀ i, s.registers i < 32768) :
    (∀ v t, s.get = Except.ok (v, t) → v ≤ 32767) ∧
    (s.memory s.pc = 9 → ∀ f t, step s = StepResult.fault f t → f ≠ Fault.addOverflow) := by
  constructor
  · intro v t h
    rcases get_split s with ⟨w, h', hw⟩ | h' | h'
    · rw [h'] at h
      cases h
      have := operand_bound hreg hw
      omega
    · rw [h'] at h
      exact Except.noConfusion h
    · rw [h'] at h
      exact Except.noConfusion h
  · intro hop f t h
    by_cases hpc : s.pc < MEM_SIZE
    · have heq : step s = execOp (s.memory s.pc) { s with pc := s.pc + 1 } := by
        unfold step
        rw [if_pos hpc]
      rw [heq, hop] at h
      rcases get_register_split ({ s with pc := s.pc + 1 } : VM) with ⟨a, -, h1⟩ | h1 | h1 <;>
        simp only [execOp, h1] at h
      · rcases get_split ({ s with pc := s.pc + 1 + 1 } : VM) with ⟨b, h2, hb⟩ | h2 | h2 <;>
          simp only [h2] at h
        · rcases get_split ({ s with pc := s.pc + 1 + 1 + 1 } : VM) with ⟨c, h3, hc⟩ | h3 | h3 <;>
            simp only [h3] at h
          · split at h
            · exact StepResult.noConfusion h
            · rename_i hcond
              have hb' := operand_bound hreg hb
              have hc' := operand_bound hreg hc
              simp only [U16MOD] at hcond
              omega
          · cases h
            simp
          · cases h
            simp
        · cases h
          simp
        · cases h
          simp
      · cases h
        simp
      · cases h
        simp
    · have heq : step s = StepResult.fault (Fault.oobIndex s.pc) s := by
        unfold step
        rw [if_neg hpc]
      rw [heq] at h
      cases h
      simp

/-- Witness for C9: an ADD of two in-range literals in a VM with all
registers zero. -/
theorem c9_witness :
    (∀ v t, VM.get c9Ex = Except.ok (v, t) → v ≤ 32767) ∧
    (c9Ex.memory c9Ex.pc = 9 → ∀ f t, step c9Ex = StepResult.fault f t →
      f ≠ Fault.addOverflow) :=
  c9_add_no_overflow c9Ex (fun i => by norm_num [c9Ex, vmOf])

end Synacor
